import Mathlib

/-!
Shallow embedding of the uk-broadband-score scraper pipeline.

Python dictionaries holding scraped broadband deals are modelled by the
`Deal` structure whose fields are `Option PyVal` (a `none` field models an
absent dictionary key; `some PyVal.none` models a key present with value
`None`).  Python floats are modelled by rationals, Python exceptions by
`Option`/`Except` results.  Each definition is transcribed from the source
file named in its doc comment.  Text processing is carried out on
character lists (`String.data`), matching Python's per-character regex
operations.
-/

/-- A Python value as it occurs in the deal dictionaries of the repository:
`None`, `bool`, `int`, `float` (modelled by `ℚ`) or `str`. -/
inductive PyVal where
  | none : PyVal
  | bool : Bool → PyVal
  | int : ℤ → PyVal
  | float : ℚ → PyVal
  | str : String → PyVal
deriving DecidableEq, Repr, Inhabited

/-- A deal dictionary.  Named fields are the keys touched by
`DataProcessor`; `others` carries any remaining key/value pairs, which the
processing functions never read or write. -/
structure Deal where
  provider : Option PyVal := Option.none
  monthly_price : Option PyVal := Option.none
  upfront_cost : Option PyVal := Option.none
  download_speed : Option PyVal := Option.none
  upload_speed : Option PyVal := Option.none
  contract_length : Option PyVal := Option.none
  total_contract_cost : Option PyVal := Option.none
  extraction_timestamp : Option PyVal := Option.none
  data_allowance : Option PyVal := Option.none
  router_included : Option PyVal := Option.none
  installation_type : Option PyVal := Option.none
  others : List (String × PyVal) := []
deriving DecidableEq, Repr, Inhabited

/-- Numeric value of an int/float/bool `PyVal` (Python treats `bool` as an
`int`); `none` for non-numeric values. -/
def pyNumQ : PyVal → Option ℚ
  | .int n => some (n : ℚ)
  | .float q => some q
  | .bool b => some (if b then 1 else 0)
  | _ => Option.none

/-- Python truthiness of a value (`if value:`). -/
def pyTruthy : PyVal → Bool
  | .none => false
  | .bool b => b
  | .int n => n ≠ 0
  | .float q => q ≠ 0
  | .str s => !s.isEmpty

/-- Python `a <= b`; `none` models the `TypeError` raised on unsupported
operand types such as `str <= int`. -/
def pyLE (a b : PyVal) : Option Bool :=
  match pyNumQ a, pyNumQ b with
  | some x, some y => some (decide (x ≤ y))
  | _, _ =>
    match a, b with
    | .str s, .str t => some (decide (s ≤ t))
    | _, _ => Option.none

/-- Python `a < b`; `none` models the `TypeError` on unsupported types. -/
def pyLT (a b : PyVal) : Option Bool :=
  match pyNumQ a, pyNumQ b with
  | some x, some y => some (decide (x < y))
  | _, _ =>
    match a, b with
    | .str s, .str t => some (decide (s < t))
    | _, _ => Option.none

/-- Python `a + b` restricted to the numeric values reachable in
`normalize_deal` (int-int stays int, any float makes a float);
`PyVal.none` is unreachable junk standing for `TypeError`. -/
def pyAdd : PyVal → PyVal → PyVal
  | .float x, .float y => .float (x + y)
  | .float x, .int n => .float (x + (n : ℚ))
  | .float x, .bool c => .float (x + (if c then 1 else 0))
  | .int n, .float y => .float ((n : ℚ) + y)
  | .bool c, .float y => .float ((if c then 1 else 0) + y)
  | .int n, .int m => .int (n + m)
  | .int n, .bool c => .int (n + (if c then 1 else 0))
  | .bool c, .int m => .int ((if c then 1 else 0) + m)
  | .bool c, .bool d => .int ((if c then 1 else 0) + (if d then 1 else 0))
  | _, _ => .none

/-- Python `a * b` restricted to numeric values, as for `pyAdd`. -/
def pyMul : PyVal → PyVal → PyVal
  | .float x, .float y => .float (x * y)
  | .float x, .int n => .float (x * (n : ℚ))
  | .float x, .bool c => .float (x * (if c then 1 else 0))
  | .int n, .float y => .float ((n : ℚ) * y)
  | .bool c, .float y => .float ((if c then 1 else 0) * y)
  | .int n, .int m => .int (n * m)
  | .int n, .bool c => .int (n * (if c then 1 else 0))
  | .bool c, .int m => .int ((if c then 1 else 0) * m)
  | .bool c, .bool d => .int ((if c then 1 else 0) * (if d then 1 else 0))
  | _, _ => .none

/-- Python `str.lower()` on a character list. -/
def toLowerL (cs : List Char) : List Char :=
  cs.map Char.toLower

/-- `pat` begins the list `cs`. -/
def headsL : List Char → List Char → Bool
  | [], _ => true
  | _ :: _, [] => false
  | a :: as, b :: bs => a = b && headsL as bs

/-- Substring containment on character lists, Python `pat in s`. -/
def containsSubL : List Char → List Char → Bool
  | [], pat => pat.isEmpty
  | c :: cs, pat => headsL pat (c :: cs) || containsSubL cs pat

/-- Value of a list of decimal digit characters, most significant first. -/
def digitsVal (ds : List Char) : ℕ :=
  ds.foldl (fun a c => 10 * a + (c.toNat - 48)) 0

/-- Rational value of an integer digit part and a fractional digit part,
`ip.fp` as produced by Python `float` on a decimal literal. -/
def ratOfParts (ip fp : List Char) : ℚ :=
  (digitsVal ip : ℚ) + (digitsVal fp : ℚ) / (10 : ℚ) ^ fp.length

/-- First match of the regex `(\d+)` in a character list, as a natural
number (`re.search(r'(\d+)', text)` followed by `int(...)`). -/
def reSearchNatAux : List Char → Option ℕ
  | [] => Option.none
  | c :: cs =>
    if c.isDigit then some (digitsVal ((c :: cs).takeWhile Char.isDigit))
    else reSearchNatAux cs

/-- Integer and fractional digit lists of the first match of the greedy
regex `(\d+\.?\d*)` in a character list. -/
def reSearchFloatPartsAux : List Char → Option (List Char × List Char)
  | [] => Option.none
  | c :: cs =>
    if c.isDigit then
      let d1 := (c :: cs).takeWhile Char.isDigit
      let r := (c :: cs).dropWhile Char.isDigit
      some (match r with
        | '.' :: r2 => (d1, r2.takeWhile Char.isDigit)
        | _ => (d1, []))
    else reSearchFloatPartsAux cs

/-- First match of the greedy regex `(\d+\.?\d*)`, read as a rational
(`re.search` followed by `float(...)`, which cannot fail on such a match). -/
def reSearchFloatL (cs : List Char) : Option ℚ :=
  (reSearchFloatPartsAux cs).map (fun p => ratOfParts p.1 p.2)

/-- Digit parts accepted by Python `float(s)` on a string of digits and
dots (the only strings the repository passes to `float` after its regex
cleaning): defined iff there is at least one digit and at most one dot. -/
def parseFloatParts (cs : List Char) : Option (List Char × List Char) :=
  if cs.all (fun c => c.isDigit || c = '.') && cs.count '.' ≤ 1 && cs.any Char.isDigit then
    some (cs.takeWhile (fun c => c ≠ '.'), (cs.dropWhile (fun c => c ≠ '.')).drop 1)
  else Option.none

/-- Python `float(s)` on a digits-and-dots string, `none` for `ValueError`. -/
def parseFloatDDL (cs : List Char) : Option ℚ :=
  (parseFloatParts cs).map (fun p => ratOfParts p.1 p.2)

/-- Fractional decimal digits of `0 ≤ x < 1`, up to `fuel` digits
(used only to render a Python `str(float)`). -/
def fracDigitsAux : ℕ → ℚ → List Char
  | 0, _ => []
  | n + 1, x =>
    if x = 0 then []
    else
      let y := x * 10
      Char.ofNat (48 + y.floor.toNat) :: fracDigitsAux n (y - (y.floor : ℚ))

/-- Decimal rendering of a nonnegative rational, in the style of Python
`str` on a float (always shows a fractional part, e.g. `"3.0"`). -/
def pyStrOfFloatNN (q : ℚ) : List Char :=
  let ds := fracDigitsAux 17 (q - (q.floor : ℚ))
  (toString q.floor.toNat).data ++ '.' :: (if ds.isEmpty then ['0'] else ds)

/-- Python `str(value)` for a float value (sign plus decimal rendering).
The repository only reaches this when a deal stores a float where text is
expected; no claim depends on the exact digits produced. -/
def pyStrOfFloat (q : ℚ) : List Char :=
  if q < 0 then '-' :: pyStrOfFloatNN (-q) else pyStrOfFloatNN q

/-- `DataProcessor.clean_price` (src/src/utils/data_processor.py:30-54):
`None` stays `None`; int/float (and bool, a Python int) pass through as a
float; a string is stripped of `£$€,` then of everything but digits and
dots and parsed with `float`, `ValueError` giving `None`. -/
def clean_price : PyVal → Option ℚ
  | .none => Option.none
  | .int n => some (n : ℚ)
  | .float q => some q
  | .bool b => some (if b then 1 else 0)
  | .str s =>
    let cleaned1 := s.data.filter (fun c => !(c = '£' || c = '$' || c = '€' || c = ','))
    let cleaned2 := cleaned1.filter (fun c => c.isDigit || c = '.')
    parseFloatDDL cleaned2

/-- `DataProcessor.clean_speed` (src/src/utils/data_processor.py:56-89):
numeric values pass through; text is lowercased, a `gb`/`gig` marker
multiplies the first `(\d+\.?\d*)` match by 1000, otherwise the match is
returned as Mbps; no digits gives `None`. -/
def clean_speed : PyVal → Option ℚ
  | .none => Option.none
  | .int n => some (n : ℚ)
  | .float q => some q
  | .bool b => some (if b then 1 else 0)
  | .str s =>
    let t := toLowerL s.data
    if containsSubL t "gb".data || containsSubL t "gig".data then
      match reSearchFloatL t with
      | some q => some (q * 1000)
      | Option.none => Option.none
    else reSearchFloatL t

/-- `DataProcessor.clean_contract_length`
(src/src/utils/data_processor.py:91-121): `None` stays `None`; an int (or
bool, a Python int) is returned unchanged; otherwise `str(value).lower()`
is searched for `(\d+)` and the result is multiplied by 12 when the text
contains `year`; no digits gives `None`. -/
def clean_contract_length : PyVal → PyVal
  | .none => .none
  | .int n => .int n
  | .bool b => .bool b
  | .float q =>
    let t := toLowerL (pyStrOfFloat q)
    match reSearchNatAux t with
    | some m => .int (if containsSubL t "year".data then (m : ℤ) * 12 else (m : ℤ))
    | Option.none => .none
  | .str s =>
    let t := toLowerL s.data
    match reSearchNatAux t with
    | some m => .int (if containsSubL t "year".data then (m : ℤ) * 12 else (m : ℤ))
    | Option.none => .none

/-- Lift an optional rational (a Python `Optional[float]`) back into a
stored dictionary value. -/
def optToPy : Option ℚ → PyVal
  | Option.none => .none
  | some q => .float q

example : clean_contract_length (.str "2 years") = .int 24 := by decide
example : clean_contract_length (.str "18 months") = .int 18 := by decide
example : reSearchNatAux "2 years".data = some 2 := by decide
example : clean_price (.str "£1,234.56") = some (1234.56 : ℚ) := by
  simp only [clean_price, parseFloatDDL]
  rw [show parseFloatParts
      ((("£1,234.56".data.filter (fun c => !(c = '£' || c = '$' || c = '€' || c = ','))).filter
        (fun c => c.isDigit || c = '.'))) = some ("1234".data, "56".data) from by decide]
  simp only [Option.map_some']
  rw [show ratOfParts "1234".data "56".data = 1234.56 from by
    rw [ratOfParts, show digitsVal "1234".data = 1234 from by decide,
      show digitsVal "56".data = 56 from by decide]
    norm_num]
example : clean_speed (.str "1.5 Gbps") = some (1500 : ℚ) := by
  simp only [clean_speed]
  rw [show containsSubL (toLowerL "1.5 Gbps".data) "gb".data = true from by decide]
  simp only [Bool.true_or, if_true, reSearchFloatL]
  rw [show reSearchFloatPartsAux (toLowerL "1.5 Gbps".data) = some ("1".data, "5".data) from by decide]
  simp only [Option.map_some']
  rw [show ratOfParts "1".data "5".data = 1.5 from by
    rw [ratOfParts, show digitsVal "1".data = 1 from by decide,
      show digitsVal "5".data = 5 from by decide]
    norm_num]
  norm_num

/-- Python `str.strip()` from the left, on a character list. -/
def trimLeftL (cs : List Char) : List Char :=
  cs.dropWhile Char.isWhitespace

/-- Python `str.strip()` on a character list. -/
def trimL (cs : List Char) : List Char :=
  ((trimLeftL cs).reverse.dropWhile Char.isWhitespace).reverse

/-- Python `str.upper()` on a character list. -/
def toUpperL (cs : List Char) : List Char :=
  cs.map Char.toUpper

/-- ASCII uppercase letter, the regex class `[A-Z]`. -/
def isUpperAZ (c : Char) : Bool :=
  'A' ≤ c && c ≤ 'Z'

/-- The fixed tail `\d[A-Z]{2}$` of the UK postcode regex: exactly one
digit followed by two uppercase letters. -/
def tailDUU : List Char → Bool
  | [x, y, z] => x.isDigit && isUpperAZ y && isUpperAZ z
  | _ => false

/-- One decomposition attempt for the UK postcode regex
`^[A-Z]{1,2}\d{1,2}[A-Z]?\s?\d[A-Z]{2}$`, with the repetition choices
`l ∈ {1,2}`, `d ∈ {1,2}`, `e ∈ {0,1}`, `sp ∈ {0,1}` fixed. -/
def checkSplit (cs : List Char) (l d e sp : ℕ) : Bool :=
  let p1 := cs.take l
  let r1 := cs.drop l
  let p2 := r1.take d
  let r2 := r1.drop d
  let p3 := r2.take e
  let r3 := r2.drop e
  let p4 := r3.take sp
  let r4 := r3.drop sp
  p1.length = l && p1.all isUpperAZ &&
  p2.length = d && p2.all Char.isDigit &&
  p3.length = e && p3.all isUpperAZ &&
  p4.length = sp && p4.all Char.isWhitespace &&
  tailDUU r4

/-- Anchored match of the UK postcode regex: a backtracking engine finds a
match exactly when some choice of repetition counts fits. -/
def matchUKList (cs : List Char) : Bool :=
  ([1, 2] : List ℕ).any fun l => ([1, 2] : List ℕ).any fun d =>
    ([0, 1] : List ℕ).any fun e => ([0, 1] : List ℕ).any fun sp =>
      checkSplit cs l d e sp

/-- `DataProcessor.validate_postcode`
(src/src/utils/data_processor.py:15-28): uppercase, strip, then match the
UK postcode pattern anchored at both ends. -/
def validate_postcode (s : String) : Bool :=
  matchUKList (trimL (toUpperL s.data))

/-- The range checks of `DataProcessor.validate_deal`
(src/src/utils/data_processor.py:141-151) on the present price and speed
values, in source order with Python's `or` short-circuit.  The result
`none` models a raised `TypeError` (a comparison on a non-numeric
value); `some b` models a normal return of `b`. -/
def vdChecks (mp ds : PyVal) : Option Bool :=
  match pyLE mp (.int 0) with
  | Option.none => Option.none
  | some true => some false
  | some false =>
    match pyLT (.int 200) mp with
    | Option.none => Option.none
    | some true => some false
    | some false =>
      match pyLT ds (.int 10) with
      | Option.none => Option.none
      | some true => some false
      | some false =>
        match pyLT (.int 10000) ds with
        | Option.none => Option.none
        | some true => some false
        | some false => some true

/-- `DataProcessor.validate_deal` (src/src/utils/data_processor.py:123-151).
Checks the required fields in order (absent or `None` returns `False`),
then runs the price and speed range checks. -/
def validate_deal (d : Deal) : Option Bool :=
  match d.provider with
  | Option.none | some .none => some false
  | some _ =>
    match d.monthly_price with
    | Option.none | some .none => some false
    | some mp =>
      match d.download_speed with
      | Option.none | some .none => some false
      | some ds => vdChecks mp ds

/-- `DataProcessor.normalize_deal` (src/src/utils/data_processor.py:153-198):
copy the deal, coerce the numeric fields through the cleaning functions,
compute the total contract cost when absent and both price and length are
truthy, stamp the extraction timestamp (`now` stands for
`datetime.now().isoformat()`) when absent, and fill the three defaults. -/
def normalize_deal (now : String) (d : Deal) : Deal :=
  let mp := d.monthly_price.map (fun v => optToPy (clean_price v))
  let up := d.upfront_cost.map (fun v => PyVal.float ((clean_price v).getD 0))
  let dl := d.download_speed.map (fun v => optToPy (clean_speed v))
  let ul := d.upload_speed.map (fun v => optToPy (clean_speed v))
  let cl := d.contract_length.map clean_contract_length
  let tc :=
    if d.total_contract_cost.isNone && pyTruthy (mp.getD .none) && pyTruthy (cl.getD .none) then
      some (pyAdd (up.getD (.int 0)) (pyMul (mp.getD .none) (cl.getD .none)))
    else d.total_contract_cost
  { d with
    monthly_price := mp
    upfront_cost := up
    download_speed := dl
    upload_speed := ul
    contract_length := cl
    total_contract_cost := tc
    extraction_timestamp := some (d.extraction_timestamp.getD (.str now))
    data_allowance := some (d.data_allowance.getD (.str "Unlimited"))
    router_included := some (d.router_included.getD .none)
    installation_type := some (d.installation_type.getD (.str "Standard")) }

/-- `DataProcessor.process_results` (src/src/utils/data_processor.py:200-228):
normalize each deal, keep it when validation returns `True`, drop it when
validation returns `False` or raises (the `except` branch logs and
continues). -/
def procStep (now : String) (acc : List Deal) (deal : Deal) : List Deal :=
  let normalized := normalize_deal now deal
  match validate_deal normalized with
  | some true => acc ++ [normalized]
  | _ => acc

/-- The fold over the incoming deals performed by `process_results`. -/
def process_results (now : String) (deals : List Deal) : List Deal :=
  deals.foldl (procStep now) []

/-- `BaseScraper.extract_price` (src/src/scrapers/base_scraper.py:202-214):
falsy text gives `None`; otherwise commas are removed and the first match
of `[\d,]+\.?\d*` is parsed with `float` (comma-free after the `replace`,
so the class `[\d,]` matches exactly the digits of `\d`). -/
def extract_price (text : String) : Option ℚ :=
  if text.isEmpty then Option.none
  else reSearchFloatL (text.data.filter (fun c => c ≠ ','))

/-- `BaseScraper.extract_contract_length`
(src/src/scrapers/base_scraper.py:236-247): falsy text gives `None`;
otherwise the first match of `(\d+)` is returned as-is — unlike
`DataProcessor.clean_contract_length` there is no year-to-month
conversion. -/
def extract_contract_length (text : String) : Option ℕ :=
  if text.isEmpty then Option.none else reSearchNatAux text.data

/-- The derived `technology_type` field built by the EE, Virgin Media and
Sky extractors (src/src/scrapers/ee_scraper.py:216,
src/src/scrapers/virgin_scraper.py:662, src/src/scrapers/sky_scraper.py:401):
`"FTTC" if download_speed < 100 else "FTTP"`. -/
def technology_type (download_speed : ℚ) : String :=
  if download_speed < 100 then "FTTC" else "FTTP"

/-- `Orchestrator._run_scraper` (src/src/orchestrator.py:144-171): an
unknown provider gives `[]`; otherwise the scrape outcome is returned,
with any exception caught and turned into `[]`. -/
def run_scraper (known : Bool) (scrapeOutcome : Except String (List Deal)) : List Deal :=
  if !known then []
  else
    match scrapeOutcome with
    | .ok r => r
    | .error _ => []

/-- `Orchestrator._run_concurrent` (src/src/orchestrator.py:123-142):
`asyncio.gather(..., return_exceptions=True)` delivers one outcome per
provider task (`res`), an exception outcome is logged and skipped, a
non-empty list is appended to the accumulated results, an empty list is
logged and skipped. -/
def concStep (res : String → Except String (List Deal)) (acc : List Deal) (p : String) :
    List Deal :=
  match res p with
  | .error _ => acc
  | .ok r => if r.isEmpty then acc else acc ++ r

/-- The fold over the per-provider outcomes performed by `_run_concurrent`. -/
def run_concurrent (providers : List String) (res : String → Except String (List Deal)) :
    List Deal :=
  providers.foldl (concStep res) []

/-- `BTScraper.enter_postcode_and_select_address`
(src/src/scrapers/bt_scraper.py:155-257) as a retry protocol: `out i` is
the outcome of attempt `i` (`true` when the postcode entry, address
selection and product-card wait all succeed, `false` when any step times
out, finds no addresses or raises).  The loop runs while `attempt <
max_attempts`, incrementing `attempt` first; a successful attempt returns
`True` immediately, exhaustion returns `False`.  The result pairs the
returned flag with the number of attempts made. -/
def retryFrom (out : ℕ → Bool) : ℕ → ℕ → Bool × ℕ
  | attempt, 0 => (false, attempt)
  | attempt, rem + 1 =>
    if out (attempt + 1) then (true, attempt + 1) else retryFrom out (attempt + 1) rem

/-- The BT postcode/address sub-protocol with its `max_attempts = 5`. -/
def enter_postcode_and_select_address (out : ℕ → Bool) : Bool × ℕ :=
  retryFrom out 0 5

example : enter_postcode_and_select_address (fun _ => false) = (false, 5) := by decide
example : enter_postcode_and_select_address (fun i => i = 3) = (true, 3) := by decide
example : validate_postcode "SW1A 1AA" = true := by decide
example : validate_postcode " sw1a 1aa " = true := by decide
example : validate_postcode "INVALID" = false := by decide
example : validate_postcode "M1 1AA" = true := by decide
example : extract_contract_length "2 years" = some 2 := by decide

/-- Python `card_id.strip().lower()` used for card deduplication. -/
def normId (cs : List Char) : List Char :=
  toLowerL (trimL cs)

/-- Loop state of `BTScraper._scrape_cards`: the next card index, the
consecutive no-progress cycle counter, the set of seen normalized card
ids, the indices of cards a parse was attempted on (in order), and the
number of DOM polls made so far. -/
structure ScrapeState where
  index : ℕ
  stable : ℕ
  seen : List (List Char)
  attempts : List ℕ
  t : ℕ
deriving Repr

/-- `BTScraper._scrape_cards` (src/src/scrapers/bt_scraper.py:503-573).
`counts t` is the number of cards the lazy-loading page has rendered at
the `t`-th poll of `cards.count()`; `ids i` is the (fixed) `id` attribute
of card `i`.  Each loop iteration polls the count once.  When every
rendered card has been consumed the no-progress counter `stable_cycles`
is incremented and the loop breaks once it exceeds 2 (the third
consecutive no-progress cycle); otherwise the next card is taken, cards
with a truthy id already seen are skipped, and a parse is attempted on
the rest.  `fuel` bounds the number of iterations; `none` means the fuel
ran out, i.e. the loop was still running. -/
def scrape_cards_loop (counts : ℕ → ℕ) (ids : ℕ → Option (List Char)) :
    ℕ → ScrapeState → Option (List ℕ)
  | 0, _ => Option.none
  | fuel + 1, s =>
    let total := counts s.t
    if s.index ≥ total then
      if s.stable + 1 > 2 then some s.attempts
      else scrape_cards_loop counts ids fuel
        { s with stable := s.stable + 1, t := s.t + 1 }
    else
      let i := s.index
      match ids i with
      | some cid =>
        if cid.isEmpty then
          scrape_cards_loop counts ids fuel
            { index := i + 1, stable := 0, seen := s.seen,
              attempts := s.attempts ++ [i], t := s.t + 1 }
        else if normId cid ∈ s.seen then
          scrape_cards_loop counts ids fuel
            { index := i + 1, stable := 0, seen := s.seen,
              attempts := s.attempts, t := s.t + 1 }
        else
          scrape_cards_loop counts ids fuel
            { index := i + 1, stable := 0, seen := normId cid :: s.seen,
              attempts := s.attempts ++ [i], t := s.t + 1 }
      | Option.none =>
        scrape_cards_loop counts ids fuel
          { index := i + 1, stable := 0, seen := s.seen,
            attempts := s.attempts ++ [i], t := s.t + 1 }

/-- The start state of the card-scraping loop. -/
def scrapeStart : ScrapeState :=
  { index := 0, stable := 0, seen := [], attempts := [], t := 0 }

/-- A single heap write: replace the deal at address `b` by `f` of it. -/
def heapW (h : List Deal) (b : ℕ) (f : Deal → Deal) : List Deal :=
  h.set b (f (h.getD b default))

/-- Run a sequence of statements, each writing the address `b` of a heap
of deal dictionaries. -/
def heapChain (b : ℕ) : List (Deal → Deal) → List Deal → List Deal
  | [], hh => hh
  | f :: fs, hh => heapChain b fs (heapW hh b f)

/-- The statements of the body of `DataProcessor.normalize_deal`
(src/src/utils/data_processor.py:164-196) after `normalized =
deal.copy()`, in source order; each one reads and writes only the
`normalized` dictionary. -/
def normalize_stmts (now : String) : List (Deal → Deal) :=
  [fun d =>
    { d with monthly_price := d.monthly_price.map (fun v => optToPy (clean_price v)) },
   fun d =>
    { d with upfront_cost := d.upfront_cost.map (fun v => PyVal.float ((clean_price v).getD 0)) },
   fun d =>
    { d with download_speed := d.download_speed.map (fun v => optToPy (clean_speed v)) },
   fun d =>
    { d with upload_speed := d.upload_speed.map (fun v => optToPy (clean_speed v)) },
   fun d =>
    { d with contract_length := d.contract_length.map clean_contract_length },
   fun d =>
    if d.total_contract_cost.isNone && pyTruthy (d.monthly_price.getD .none) &&
        pyTruthy (d.contract_length.getD .none) then
      { d with total_contract_cost := some (pyAdd (d.upfront_cost.getD (.int 0))
          (pyMul (d.monthly_price.getD .none) (d.contract_length.getD .none))) }
    else d,
   fun d =>
    if d.extraction_timestamp.isNone then
      { d with extraction_timestamp := some (.str now) }
    else d,
   fun d =>
    if d.data_allowance.isNone then { d with data_allowance := some (.str "Unlimited") }
    else d,
   fun d =>
    if d.router_included.isNone then { d with router_included := some .none } else d,
   fun d =>
    if d.installation_type.isNone then { d with installation_type := some (.str "Standard") }
    else d]

/-- `DataProcessor.normalize_deal` again, statement by statement on an
explicit heap of deal dictionaries: the argument dictionary lives at
address `a`, `normalized = deal.copy()` allocates a fresh address `b`
holding a copy, and every subsequent statement of the Python function
writes only to `b`.  Returns the final heap and the address of the
result. -/
def normalize_deal_heap (now : String) (h : List Deal) (a : ℕ) : List Deal × ℕ :=
  (heapChain h.length (normalize_stmts now) (h ++ [h.getD a default]), h.length)

example :
    scrape_cards_loop (fun t => min t 2) (fun _ => Option.none) 12 scrapeStart =
      some [0, 1] := by decide

lemma charOfNat_val_toNat (n : ℕ) (h : n < 55296) : (Char.ofNat n).val.toNat = n := by
  rw [Char.ofNat]
  split
  · rfl
  · rename_i hbad
    exact absurd (Or.inl h) hbad

lemma toLower_of_isDigit (c : Char) (h : c.isDigit = true) : c.toLower = c := by
  rw [Char.toLower, if_neg]
  simp only [Char.isDigit, Bool.and_eq_true, decide_eq_true_eq] at h
  obtain ⟨h1, h2⟩ := h
  have h2n : c.val.toNat ≤ 57 := h2
  intro hc
  obtain ⟨h3, h4⟩ := hc
  simp only [Char.toNat] at h3
  omega

lemma isDigit_toLower (c : Char) : (c.toLower).isDigit = c.isDigit := by
  rw [Char.toLower]
  split
  · rename_i hc
    obtain ⟨h3, h4⟩ := hc
    have hv : (Char.ofNat (Char.toNat c + 32)).val.toNat = Char.toNat c + 32 :=
      charOfNat_val_toNat _ (by omega)
    have hd1 : (Char.ofNat (Char.toNat c + 32)).isDigit = false := by
      simp only [Char.isDigit, Bool.and_eq_false_iff, decide_eq_false_iff_not]
      right
      intro hle
      have h5 : (Char.ofNat (Char.toNat c + 32)).val.toNat ≤ 57 := hle
      omega
    have hd2 : c.isDigit = false := by
      simp only [Char.isDigit, Bool.and_eq_false_iff, decide_eq_false_iff_not]
      right
      intro hle
      have h5 : Char.toNat c ≤ 57 := hle
      omega
    rw [hd1, hd2]
  · rfl

lemma takeWhile_isDigit_toLowerL (cs : List Char) :
    (toLowerL cs).takeWhile Char.isDigit = cs.takeWhile Char.isDigit := by
  induction cs with
  | nil => rfl
  | cons c cs ih =>
    simp only [toLowerL, List.map_cons, List.takeWhile_cons, isDigit_toLower]
    cases h : c.isDigit with
    | false => simp
    | true => simpa [toLower_of_isDigit c h, toLowerL] using ih

lemma reSearchNatAux_toLowerL (cs : List Char) :
    reSearchNatAux (toLowerL cs) = reSearchNatAux cs := by
  induction cs with
  | nil => rfl
  | cons c cs ih =>
    simp only [toLowerL, List.map_cons, reSearchNatAux, isDigit_toLower]
    cases h : c.isDigit with
    | false => simpa [toLowerL] using ih
    | true =>
      simp only [if_true]
      rw [toLower_of_isDigit c h]
      have := takeWhile_isDigit_toLowerL cs
      simp only [List.takeWhile_cons, h, if_true, toLowerL] at *
      rw [this]

lemma reSearchNatAux_of_no_digit (cs : List Char) (h : ∀ c ∈ cs, c.isDigit = false) :
    reSearchNatAux cs = Option.none := by
  induction cs with
  | nil => rfl
  | cons c cs ih =>
    simp only [reSearchNatAux, h c (List.mem_cons_self c cs)]
    exact ih fun x hx => h x (List.mem_cons_of_mem c hx)

/-- C7: for extracted cards without an explicit technology label, the
derived `technology_type` is the copper/FTTC-class label whenever the
download speed is below 100 Mbps and the fibre/FTTP label whenever it is
above 100 Mbps (the shared speed-inference rule of the Sky, EE and
Virgin Media extractors). -/
theorem c7_technology_type_speed_inference (s : ℚ) :
    (s < 100 → technology_type s = "FTTC") ∧ (100 < s → technology_type s = "FTTP") := by
  constructor
  · intro h
    rw [technology_type, if_pos h]
  · intro h
    rw [technology_type, if_neg (not_lt.mpr h.le)]

/-- Witness for C7 at the concrete speeds 36 and 900. -/
theorem c7_technology_type_speed_inference_witness :
    technology_type 36 = "FTTC" ∧ technology_type 900 = "FTTP" :=
  ⟨(c7_technology_type_speed_inference 36).1 (by norm_num),
   (c7_technology_type_speed_inference 900).2 (by norm_num)⟩

lemma retryFrom_snd_le (out : ℕ → Bool) (n : ℕ) :
    ∀ a, (retryFrom out a n).2 ≤ a + n := by
  induction n with
  | zero => intro a; simp [retryFrom]
  | succ n ih =>
    intro a
    rw [retryFrom]
    cases h : out (a + 1) with
    | true => simp
    | false =>
      simp only [Bool.false_eq_true, if_false]
      have := ih (a + 1)
      omega

lemma retryFrom_all_fail (out : ℕ → Bool) (n : ℕ) :
    ∀ a, (∀ i, a < i → i ≤ a + n → out i = false) → retryFrom out a n = (false, a + n) := by
  induction n with
  | zero => intro a _; simp [retryFrom]
  | succ n ih =>
    intro a h
    rw [retryFrom]
    rw [if_neg (by simp [h (a + 1) (by omega) (by omega)])]
    have := ih (a + 1) (fun i h1 h2 => h i (by omega) (by omega))
    rw [this]
    congr 1
    omega

lemma retryFrom_first_success (out : ℕ → Bool) (n : ℕ) :
    ∀ a k, a < k → k ≤ a + n → out k = true → (∀ j, a < j → j < k → out j = false) →
      retryFrom out a n = (true, k) := by
  induction n with
  | zero => intro a k h1 h2 _ _; omega
  | succ n ih =>
    intro a k h1 h2 hk hj
    rw [retryFrom]
    by_cases hak : k = a + 1
    · subst hak
      rw [if_pos hk]
    · rw [if_neg (by simp [hj (a + 1) (by omega) (by omega)])]
      exact ih (a + 1) k (by omega) (by omega) hk (fun j hj1 hj2 => hj j (by omega) hj2)

/-- C6: the BT postcode-entry/address-selection retry loop makes at most
5 attempts; if all 5 attempts fail it returns failure (`False`) after
exactly 5 attempts instead of retrying further, and it returns success
(`True`) right at the first successful attempt. -/
theorem c6_bt_postcode_retry_bounded (out : ℕ → Bool) :
    (enter_postcode_and_select_address out).2 ≤ 5
    ∧ ((∀ i, 1 ≤ i → i ≤ 5 → out i = false) →
        enter_postcode_and_select_address out = (false, 5))
    ∧ (∀ k, 1 ≤ k → k ≤ 5 → out k = true → (∀ j, 1 ≤ j → j < k → out j = false) →
        enter_postcode_and_select_address out = (true, k)) := by
  refine ⟨?_, ?_, ?_⟩
  · simpa using retryFrom_snd_le out 5 0
  · intro h
    simpa using retryFrom_all_fail out 5 0 (fun i h1 h2 => h i (by omega) (by omega))
  · intro k h1 h2 hk hj
    simpa using
      retryFrom_first_success out 5 0 k (by omega) (by omega) hk
        (fun j hj1 hj2 => hj j (by omega) hj2)

/-- Witness for C6: with failures on attempts 1 and 2 and success on
attempt 3, the sub-protocol returns success after exactly 3 attempts. -/
theorem c6_bt_postcode_retry_bounded_witness :
    enter_postcode_and_select_address (fun i => decide (i = 3)) = (true, 3) :=
  (c6_bt_postcode_retry_bounded (fun i => decide (i = 3))).2.2 3 (by omega) (by omega)
    (by decide) (fun j h1 h2 => by simp; omega)

lemma run_concurrent_foldl_eq (res : String → Except String (List Deal)) (ps : List String) :
    ∀ acc : List Deal,
      ps.foldl (concStep res) acc =
        acc ++ (ps.filterMap (fun p => (res p).toOption)).flatten := by
  induction ps with
  | nil => intro acc; simp
  | cons p t ih =>
    intro acc
    simp only [List.foldl_cons, List.filterMap_cons]
    cases h : res p with
    | error e => simp [concStep, h, Except.toOption, ih]
    | ok r =>
      cases hr : r.isEmpty with
      | true =>
        have : r = [] := List.isEmpty_iff.mp hr
        subst this
        simp [concStep, h, Except.toOption, ih]
      | false => simp [concStep, h, hr, Except.toOption, ih, List.append_assoc]

/-- C1: in concurrent mode the Orchestrator's returned list is exactly
the concatenated records of the tasks whose outcome succeeded — a task
whose outcome is an exception contributes nothing — and when every
provider's task fails the run returns the empty list; no exception
outcome ever escapes `_run_concurrent` or `_run_scraper`, both return
plain lists. -/
theorem c1_run_concurrent_union_of_successes (ps : List String)
    (res : String → Except String (List Deal)) :
    run_concurrent ps res = (ps.filterMap (fun p => (res p).toOption)).flatten
    ∧ ((∀ p ∈ ps, (res p).toOption = Option.none) → run_concurrent ps res = [])
    ∧ (∀ (known : Bool) (e : String), run_scraper known (.error e) = []) := by
  refine ⟨?_, ?_, ?_⟩
  · have h0 := run_concurrent_foldl_eq res ps []
    rw [List.nil_append] at h0
    exact h0
  · intro h
    have h2 : ps.filterMap (fun p => (res p).toOption) = [] :=
      List.filterMap_eq_nil_iff.mpr h
    have h0 := run_concurrent_foldl_eq res ps []
    rw [h2, List.nil_append, List.flatten_nil] at h0
    exact h0
  · intro known e
    cases known <;> rfl

/-- Witness for C1: two providers that both fail yield the empty list. -/
theorem c1_run_concurrent_union_of_successes_witness :
    run_concurrent ["sky", "bt"] (fun _ => .error "boom") = [] :=
  (c1_run_concurrent_union_of_successes ["sky", "bt"] (fun _ => .error "boom")).2.1
    (fun _ _ => rfl)

/-- C4 counterexample: the claim states that both implementations
multiply by 12 on year-unit text, so that `"2 years"` yields 24; but
`BaseScraper.extract_contract_length "2 years"` yields 2. -/
theorem c4_counterexample :
    extract_contract_length "2 years" = some 2 ∧
      ¬extract_contract_length "2 years" = some 24 := by
  decide

/-- C4 amended: both implementations return the first integer found in
the text and `none` on empty or digit-free text, and they find the same
first integer; but only `DataProcessor.clean_contract_length` multiplies
by 12 on year-unit text (`"2 years"` → 24, `"18 months"` → 18), while
`BaseScraper.extract_contract_length` returns the integer unconverted
(`"2 years"` → 2). -/
theorem c4_contract_length_extraction (s : String) :
    (∀ m, reSearchNatAux (toLowerL s.data) = some m →
      clean_contract_length (.str s) =
        .int (if containsSubL (toLowerL s.data) "year".data then (m : ℤ) * 12 else (m : ℤ)))
    ∧ (s.isEmpty = false → extract_contract_length s = reSearchNatAux s.data)
    ∧ reSearchNatAux (toLowerL s.data) = reSearchNatAux s.data
    ∧ ((∀ c ∈ s.data, c.isDigit = false) →
        clean_contract_length (.str s) = .none ∧ extract_contract_length s = Option.none)
    ∧ clean_contract_length (.str "2 years") = .int 24
    ∧ extract_contract_length "2 years" = some 2
    ∧ clean_contract_length (.str "18 months") = .int 18
    ∧ extract_contract_length "18 months" = some 18 := by
  refine ⟨?_, ?_, reSearchNatAux_toLowerL s.data, ?_, by decide, by decide, by decide, by decide⟩
  · intro m hm
    simp only [clean_contract_length, hm]
  · intro h
    rw [extract_contract_length, if_neg (by simp [h])]
  · intro h
    have hlow : reSearchNatAux (toLowerL s.data) = Option.none := by
      rw [reSearchNatAux_toLowerL]
      exact reSearchNatAux_of_no_digit s.data h
    constructor
    · simp only [clean_contract_length, hlow]
    · rw [extract_contract_length]
      split
      · rfl
      · exact reSearchNatAux_of_no_digit s.data h

/-- Witness for C4's amended theorem at `"no digits here"`. -/
theorem c4_contract_length_extraction_witness :
    clean_contract_length (.str "no digits here") = .none ∧
      extract_contract_length "no digits here" = Option.none :=
  (c4_contract_length_extraction "no digits here").2.2.2.1 (by decide)

/-- The character class appearing in the UK postcode pattern: uppercase
letters, digits and whitespace. -/
def pcClass (c : Char) : Bool :=
  isUpperAZ c || c.isDigit || c.isWhitespace

lemma isUpperAZ_bounds (c : Char) (h : isUpperAZ c = true) :
    65 ≤ Char.toNat c ∧ Char.toNat c ≤ 90 := by
  simp only [isUpperAZ, Bool.and_eq_true, decide_eq_true_eq] at h
  exact ⟨h.1, h.2⟩

lemma isDigit_bounds (c : Char) (h : c.isDigit = true) :
    48 ≤ Char.toNat c ∧ Char.toNat c ≤ 57 := by
  simp only [Char.isDigit, Bool.and_eq_true, decide_eq_true_eq] at h
  exact ⟨h.1, h.2⟩

lemma isWhitespace_toNat (c : Char) (h : c.isWhitespace = true) :
    Char.toNat c = 32 ∨ Char.toNat c = 9 ∨ Char.toNat c = 13 ∨ Char.toNat c = 10 := by
  simp only [Char.isWhitespace, Bool.or_eq_true, decide_eq_true_eq] at h
  rcases h with ((h | h) | h) | h <;> subst h <;> decide

lemma toUpper_fixed_of_toNat_lt (c : Char) (h : Char.toNat c < 97) : c.toUpper = c := by
  rw [Char.toUpper, if_neg]
  intro hc
  exact absurd hc.1 (by omega)

lemma toUpper_fixed_of_pcClass (c : Char) (h : pcClass c = true) : c.toUpper = c := by
  apply toUpper_fixed_of_toNat_lt
  simp only [pcClass, Bool.or_eq_true] at h
  rcases h with (h | h) | h
  · exact lt_of_le_of_lt (isUpperAZ_bounds c h).2 (by omega)
  · exact lt_of_le_of_lt (isDigit_bounds c h).2 (by omega)
  · rcases isWhitespace_toNat c h with h | h | h | h <;> omega

lemma isUpperAZ_not_ws (c : Char) (h : isUpperAZ c = true) : c.isWhitespace = false := by
  cases hw : c.isWhitespace with
  | false => rfl
  | true =>
    exfalso
    have h1 := (isUpperAZ_bounds c h).1
    rcases isWhitespace_toNat c hw with h2 | h2 | h2 | h2 <;> omega

lemma toUpperL_id_of_pcClass (cs : List Char) (h : ∀ c ∈ cs, pcClass c = true) :
    toUpperL cs = cs := by
  induction cs with
  | nil => rfl
  | cons c cs ih =>
    simp only [toUpperL, List.map_cons]
    rw [toUpper_fixed_of_pcClass c (h c (List.mem_cons_self c cs))]
    have := ih fun x hx => h x (List.mem_cons_of_mem c hx)
    simp only [toUpperL] at this
    rw [this]

lemma trimL_id (cs : List Char) (u z : Char) (rest front : List Char)
    (h1 : cs = u :: rest) (h2 : cs = front ++ [z])
    (hu : u.isWhitespace = false) (hz : z.isWhitespace = false) :
    trimL cs = cs := by
  have hdrop : trimLeftL cs = cs := by
    rw [h1]
    simp [trimLeftL, List.dropWhile_cons, hu]
  rw [trimL, hdrop, h2, List.reverse_append]
  simp only [List.reverse_cons, List.reverse_nil, List.nil_append, List.singleton_append]
  rw [List.dropWhile_cons]
  simp [hz]

lemma tailDUU_eq_true (r : List Char) (h : tailDUU r = true) :
    ∃ x y z, r = [x, y, z] ∧ x.isDigit = true ∧ isUpperAZ y = true ∧ isUpperAZ z = true := by
  rcases r with _ | ⟨x, _ | ⟨y, _ | ⟨z, _ | ⟨w, r⟩⟩⟩⟩ <;> simp [tailDUU] at h
  exact ⟨_, _, _, rfl, h.1.1, h.1.2, h.2⟩

lemma checkSplit_facts (cs : List Char) (l d e sp : ℕ) (hl : 1 ≤ l)
    (h : checkSplit cs l d e sp = true) :
    (∀ c ∈ cs, pcClass c = true) ∧
    (∃ u rest, cs = u :: rest ∧ isUpperAZ u = true) ∧
    (∃ front z, cs = front ++ [z] ∧ isUpperAZ z = true) := by
  rw [checkSplit] at h
  simp only [Bool.and_eq_true, decide_eq_true_eq] at h
  obtain ⟨⟨⟨⟨⟨⟨⟨⟨hp1l, hp1⟩, hp2l⟩, hp2⟩, hp3l⟩, hp3⟩, hp4l⟩, hp4⟩, hm⟩ := h
  obtain ⟨x, y, z, hr4, hx, hy, hz⟩ := tailDUU_eq_true _ hm
  have hdec : cs.take l ++ ((cs.drop l).take d ++ (((cs.drop l).drop d).take e ++
      ((((cs.drop l).drop d).drop e).take sp ++ [x, y, z]))) = cs := by
    rw [← hr4, List.take_append_drop, List.take_append_drop, List.take_append_drop,
      List.take_append_drop]
  have hall1 := List.all_eq_true.mp hp1
  have hall2 := List.all_eq_true.mp hp2
  have hall3 := List.all_eq_true.mp hp3
  have hall4 := List.all_eq_true.mp hp4
  refine ⟨?_, ?_, ?_⟩
  · intro c hc
    rw [← hdec] at hc
    simp only [List.mem_append, List.mem_cons, List.not_mem_nil, or_false] at hc
    rcases hc with hc | hc | hc | hc | hc | hc | hc
    · simp [pcClass, hall1 c hc]
    · simp [pcClass, hall2 c hc]
    · simp [pcClass, hall3 c hc]
    · simp [pcClass, hall4 c hc]
    · subst hc; simp [pcClass, hx]
    · subst hc; simp [pcClass, hy]
    · subst hc; simp [pcClass, hz]
  · rcases ht : cs.take l with _ | ⟨u, tl⟩
    · exfalso
      rw [ht] at hp1l
      simp at hp1l
      omega
    · refine ⟨u, tl ++ ((cs.drop l).take d ++ (((cs.drop l).drop d).take e ++
        ((((cs.drop l).drop d).drop e).take sp ++ [x, y, z]))), ?_, ?_⟩
      · conv_lhs => rw [← hdec]
        rw [ht]
        simp
      · exact hall1 u (by rw [ht]; exact List.mem_cons_self u tl)
  · refine ⟨cs.take l ++ ((cs.drop l).take d ++ (((cs.drop l).drop d).take e ++
      ((((cs.drop l).drop d).drop e).take sp ++ [x, y]))), z, ?_, hz⟩
    conv_lhs => rw [← hdec]
    simp

lemma matchUKList_facts (cs : List Char) (h : matchUKList cs = true) :
    (∀ c ∈ cs, pcClass c = true) ∧
    (∃ u rest, cs = u :: rest ∧ isUpperAZ u = true) ∧
    (∃ front z, cs = front ++ [z] ∧ isUpperAZ z = true) := by
  rw [matchUKList] at h
  simp only [List.any_eq_true, List.mem_cons, List.mem_singleton, List.not_mem_nil,
    or_false] at h
  obtain ⟨l, hl, d, hd, e, he, sp, hsp, hc⟩ := h
  have hl1 : 1 ≤ l := by rcases hl with h | h <;> omega
  exact checkSplit_facts cs l d e sp hl1 hc

/-- C8: a string already matching the canonical UK postcode pattern is
accepted by `validate_postcode`; a string whose uppercased and stripped
form does not match the pattern is rejected (matching is performed after
uppercasing and stripping); `"SW1A 1AA"` is accepted and `"INVALID"`
rejected. -/
theorem c8_validate_postcode_pattern (s : String) :
    (matchUKList s.data = true → validate_postcode s = true)
    ∧ (matchUKList (trimL (toUpperL s.data)) = false → validate_postcode s = false)
    ∧ validate_postcode "SW1A 1AA" = true
    ∧ validate_postcode "INVALID" = false := by
  refine ⟨?_, ?_, by decide, by decide⟩
  · intro h
    obtain ⟨hclass, ⟨u, rest, hcons, hu⟩, ⟨front, z, happ, hz⟩⟩ := matchUKList_facts s.data h
    rw [validate_postcode, toUpperL_id_of_pcClass s.data hclass,
      trimL_id s.data u z rest front hcons happ (isUpperAZ_not_ws u hu) (isUpperAZ_not_ws z hz)]
    exact h
  · intro h
    rw [validate_postcode]
    exact h

/-- Witness for C8 at `"SW1A 1AA"` (matching) and `"INVALID"`
(not matching). -/
theorem c8_validate_postcode_pattern_witness :
    validate_postcode "SW1A 1AA" = true ∧ validate_postcode "INVALID" = false :=
  ⟨(c8_validate_postcode_pattern "SW1A 1AA").1 (by decide),
   (c8_validate_postcode_pattern "INVALID").2.1 (by decide)⟩

lemma parseFloatParts_no_digit (cs : List Char) (h : ∀ c ∈ cs, c.isDigit = false) :
    parseFloatParts cs = Option.none := by
  rw [parseFloatParts, if_neg]
  intro hco
  have hany : cs.any Char.isDigit = true := (Bool.and_eq_true _ _ |>.mp hco).2
  obtain ⟨c, hc, hd⟩ := List.any_eq_true.mp hany
  rw [h c hc] at hd
  simp at hd

lemma reSearchFloatPartsAux_no_digit (cs : List Char) (h : ∀ c ∈ cs, c.isDigit = false) :
    reSearchFloatPartsAux cs = Option.none := by
  induction cs with
  | nil => rfl
  | cons c cs ih =>
    rw [reSearchFloatPartsAux]
    simp only [h c (List.mem_cons_self c cs), Bool.false_eq_true, if_false]
    exact ih fun x hx => h x (List.mem_cons_of_mem c hx)

/-- C9: price extraction passes already-numeric input through unchanged
as a float (hence is idempotent), strips currency symbols and thousands
separators from text (`"£1,234.56"` gives `1234.56` through both
`DataProcessor.clean_price` and `BaseScraper.extract_price`), and yields
`none` on `None` input and on digit-free text. -/
theorem c9_price_extraction_idempotent :
    (∀ q : ℚ, clean_price (.float q) = some q)
    ∧ (∀ n : ℤ, clean_price (.int n) = some (n : ℚ))
    ∧ (∀ v : PyVal, clean_price (optToPy (clean_price v)) = clean_price v)
    ∧ clean_price (.str "£1,234.56") = some (1234.56 : ℚ)
    ∧ extract_price "£1,234.56" = some (1234.56 : ℚ)
    ∧ clean_price .none = Option.none
    ∧ (∀ s : String, (∀ c ∈ s.data, c.isDigit = false) →
        clean_price (.str s) = Option.none ∧ extract_price s = Option.none) := by
  refine ⟨fun q => rfl, fun n => rfl, ?_, ?_, ?_, rfl, ?_⟩
  · intro v
    cases h : clean_price v with
    | none => rw [optToPy]; rfl
    | some q => rw [optToPy]; rfl
  · simp only [clean_price, parseFloatDDL]
    rw [show parseFloatParts
        ((("£1,234.56".data.filter (fun c => !(c = '£' || c = '$' || c = '€' || c = ','))).filter
          (fun c => c.isDigit || c = '.'))) = some ("1234".data, "56".data) from by decide]
    simp only [Option.map_some']
    rw [show ratOfParts "1234".data "56".data = 1234.56 from by
      rw [ratOfParts, show digitsVal "1234".data = 1234 from by decide,
        show digitsVal "56".data = 56 from by decide]
      norm_num]
  · rw [extract_price, if_neg (by decide), reSearchFloatL]
    rw [show reSearchFloatPartsAux ("£1,234.56".data.filter (fun c => c ≠ ',')) =
        some ("1234".data, "56".data) from by decide]
    simp only [Option.map_some']
    rw [show ratOfParts "1234".data "56".data = 1234.56 from by
      rw [ratOfParts, show digitsVal "1234".data = 1234 from by decide,
        show digitsVal "56".data = 56 from by decide]
      norm_num]
  · intro s hs
    constructor
    · simp only [clean_price, parseFloatDDL]
      rw [parseFloatParts_no_digit]
      · rfl
      · intro c hc
        exact hs c (List.mem_of_mem_filter (List.mem_of_mem_filter hc))
    · rw [extract_price]
      split
      · rfl
      · rw [reSearchFloatL, reSearchFloatPartsAux_no_digit]
        · rfl
        · intro c hc
          exact hs c (List.mem_of_mem_filter hc)

/-- Witness for C9 at the digit-free text `"abc"`. -/
theorem c9_price_extraction_idempotent_witness :
    clean_price (.str "abc") = Option.none ∧ extract_price "abc" = Option.none :=
  c9_price_extraction_idempotent.2.2.2.2.2.2 "abc" (by decide)

/-- C2 counterexample: the claim promises `validate_deal` returns false
for every record with `download_speed` outside `[10, 10000]` regardless
of the other fields; but on a record whose `monthly_price` is the string
`"abc"`, the comparison `monthly_price <= 0` raises `TypeError` (result
`none` in the model) instead of returning false, even though the speed 5
is below 10. -/
theorem c2_counterexample :
    validate_deal
        { provider := some (.str "BT")
          monthly_price := some (.str "abc")
          download_speed := some (.float 5) } = Option.none
    ∧ (5 : ℚ) < 10 := by
  constructor
  · rfl
  · norm_num

lemma pyLE_num (v w : PyVal) (x y : ℚ) (hx : pyNumQ v = some x) (hy : pyNumQ w = some y) :
    pyLE v w = some (decide (x ≤ y)) := by
  simp [pyLE, hx, hy]

lemma pyLT_num (v w : PyVal) (x y : ℚ) (hx : pyNumQ v = some x) (hy : pyNumQ w = some y) :
    pyLT v w = some (decide (x < y)) := by
  simp [pyLT, hx, hy]

lemma procStep_foldl_acc (now : String) (l : List Deal) :
    ∀ acc : List Deal, l.foldl (procStep now) acc = acc ++ l.foldl (procStep now) [] := by
  induction l with
  | nil => simp
  | cons dd t ih =>
    intro acc
    rw [List.foldl_cons, List.foldl_cons, ih (procStep now acc dd), ih (procStep now [] dd)]
    have hs : procStep now acc dd = acc ++ procStep now [] dd := by
      simp only [procStep]
      cases hv : validate_deal (normalize_deal now dd) with
      | none => simp
      | some b => cases b <;> simp
    rw [hs, List.append_assoc]

lemma validate_required_missing (d : Deal)
    (h : d.provider = Option.none ∨ d.provider = some .none ∨
      d.monthly_price = Option.none ∨ d.monthly_price = some .none ∨
      d.download_speed = Option.none ∨ d.download_speed = some .none) :
    validate_deal d = some false := by
  rcases h with h | h | h | h | h | h
  · simp [validate_deal, h]
  · simp [validate_deal, h]
  · rcases hp : d.provider with _ | pv
    · simp [validate_deal, hp]
    · rcases pv with _ | b | n | q | s <;> simp [validate_deal, hp, h]
  · rcases hp : d.provider with _ | pv
    · simp [validate_deal, hp]
    · rcases pv with _ | b | n | q | s <;> simp [validate_deal, hp, h]
  · rcases hp : d.provider with _ | pv
    · simp [validate_deal, hp]
    · rcases hm : d.monthly_price with _ | mv
      · rcases pv with _ | b | n | q | s <;> simp [validate_deal, hp, hm]
      · rcases pv with _ | b | n | q | s <;> rcases mv with _ | b2 | n2 | q2 | s2 <;>
          simp [validate_deal, hp, hm, h]
  · rcases hp : d.provider with _ | pv
    · simp [validate_deal, hp]
    · rcases hm : d.monthly_price with _ | mv
      · rcases pv with _ | b | n | q | s <;> simp [validate_deal, hp, hm]
      · rcases pv with _ | b | n | q | s <;> rcases mv with _ | b2 | n2 | q2 | s2 <;>
          simp [validate_deal, hp, hm, h]

lemma validate_deal_eq_checks (d : Deal) (pv mv dv : PyVal)
    (hp : d.provider = some pv) (hpv : pv ≠ .none)
    (hm : d.monthly_price = some mv) (hmv : mv ≠ .none)
    (hd : d.download_speed = some dv) (hdv : dv ≠ .none) :
    validate_deal d = vdChecks mv dv := by
  rcases pv with _ | b1 | n1 | q1 | s1 <;> rcases mv with _ | b2 | n2 | q2 | s2 <;>
    rcases dv with _ | b3 | n3 | q3 | s3 <;>
    first
    | exact absurd rfl hpv
    | exact absurd rfl hmv
    | exact absurd rfl hdv
    | simp [validate_deal, hp, hm, hd]

lemma vdChecks_price_out (mv dv : PyVal) (x : ℚ) (hx : pyNumQ mv = some x)
    (hr : x ≤ 0 ∨ 200 < x) : vdChecks mv dv = some false := by
  rw [vdChecks, pyLE_num mv (.int 0) x 0 hx rfl, pyLT_num (.int 200) mv 200 x rfl hx]
  rcases hr with h | h
  · simp [h]
  · by_cases h0 : x ≤ 0
    · simp [h0]
    · simp [h0, h]

lemma vdChecks_speed_out (mv dv : PyVal) (x y : ℚ) (hx : pyNumQ mv = some x)
    (hx0 : 0 < x) (hx200 : x ≤ 200) (hy : pyNumQ dv = some y)
    (hr : y < 10 ∨ 10000 < y) : vdChecks mv dv = some false := by
  rw [vdChecks, pyLE_num mv (.int 0) x 0 hx rfl, pyLT_num (.int 200) mv 200 x rfl hx,
    pyLT_num dv (.int 10) y 10 hy rfl, pyLT_num (.int 10000) dv 10000 y rfl hy]
  have h0 : ¬x ≤ 0 := not_le.mpr hx0
  have h2 : ¬(200 : ℚ) < x := not_lt.mpr hx200
  rcases hr with h | h
  · simp [h0, h2, h]
  · have h5 : ¬y < 10 := not_lt.mpr (le_trans (by norm_num) h.le)
    simp [h0, h2, h5, h]

/-- C2 amended: `validate_deal` returns false whenever a required field
(provider, monthly price, download speed) is absent or `None`, and — for
any numeric value (int, float or bool) — whenever the monthly price is
outside `(0, 200]` or the download speed is outside `[10, 10000]`; when a
present `monthly_price` is non-numeric the speed check is never reached
because the price comparison raises `TypeError` instead (see the
counterexample).  `process_results` normalizes first (so cleaned prices
are floats or `None`), catches any exception, and always drops a record
that does not validate, without raising. -/
theorem c2_validate_rejects_and_drops (d : Deal) :
    ((d.provider = Option.none ∨ d.provider = some .none ∨
      d.monthly_price = Option.none ∨ d.monthly_price = some .none ∨
      d.download_speed = Option.none ∨ d.download_speed = some .none) →
        validate_deal d = some false)
    ∧ (∀ (v : PyVal) (x : ℚ), d.monthly_price = some v → pyNumQ v = some x →
        (x ≤ 0 ∨ 200 < x) → validate_deal d = some false)
    ∧ (∀ (w : PyVal) (y : ℚ), d.download_speed = some w → pyNumQ w = some y →
        (y < 10 ∨ 10000 < y) →
        (d.monthly_price = Option.none ∨ d.monthly_price = some .none ∨
          (∃ v x, d.monthly_price = some v ∧ pyNumQ v = some x ∧ 0 < x ∧ x ≤ 200)) →
        validate_deal d = some false)
    ∧ (∀ (now : String) (ds1 ds2 : List Deal) (dd : Deal),
        validate_deal (normalize_deal now dd) ≠ some true →
        process_results now (ds1 ++ dd :: ds2) =
          process_results now ds1 ++ process_results now ds2) := by
  refine ⟨fun h => validate_required_missing d h, ?_, ?_, ?_⟩
  · intro v x hv hx hr
    rcases hp : d.provider with _ | pv
    · exact validate_required_missing d (Or.inl hp)
    · by_cases hpv : pv = PyVal.none
      · subst hpv
        exact validate_required_missing d (Or.inr (Or.inl hp))
      · rcases hd2 : d.download_speed with _ | dv
        · exact validate_required_missing d
            (Or.inr (Or.inr (Or.inr (Or.inr (Or.inl hd2)))))
        · by_cases hdv : dv = PyVal.none
          · subst hdv
            exact validate_required_missing d
              (Or.inr (Or.inr (Or.inr (Or.inr (Or.inr hd2)))))
          · have hmv : v ≠ PyVal.none := by
              rintro rfl
              simp [pyNumQ] at hx
            rw [validate_deal_eq_checks d pv v dv hp hpv hv hmv hd2 hdv]
            exact vdChecks_price_out v dv x hx hr
  · intro w y hw hy hr hmp
    rcases hp : d.provider with _ | pv
    · exact validate_required_missing d (Or.inl hp)
    · by_cases hpv : pv = PyVal.none
      · subst hpv
        exact validate_required_missing d (Or.inr (Or.inl hp))
      · rcases hmp with hm | hm | ⟨v, x, hm, hx, hx0, hx200⟩
        · exact validate_required_missing d (Or.inr (Or.inr (Or.inl hm)))
        · exact validate_required_missing d (Or.inr (Or.inr (Or.inr (Or.inl hm))))
        · have hmv : v ≠ PyVal.none := by
            rintro rfl
            simp [pyNumQ] at hx
          have hdv : w ≠ PyVal.none := by
            rintro rfl
            simp [pyNumQ] at hy
          rw [validate_deal_eq_checks d pv v w hp hpv hm hmv hw hdv]
          exact vdChecks_speed_out v w x y hx hx0 hx200 hy hr
  · intro now ds1 ds2 dd hval
    have hstep : ∀ acc, procStep now acc dd = acc := by
      intro acc
      cases hv : validate_deal (normalize_deal now dd) with
      | none => simp [procStep, hv]
      | some b =>
        cases b with
        | true => exact absurd hv hval
        | false => simp [procStep, hv]
    rw [process_results, process_results, process_results, List.foldl_append,
      List.foldl_cons, hstep, procStep_foldl_acc]

/-- Witness for C2's amended theorem: a record missing its provider is
rejected, a record with the out-of-range integer price 300 is rejected,
and a record that does not validate is dropped from `process_results`
without an exception escaping. -/
theorem c2_validate_rejects_and_drops_witness :
    validate_deal { monthly_price := some (.float 50), download_speed := some (.float 100) } =
      some false
    ∧ validate_deal
        { provider := some (.str "Sky"), monthly_price := some (.int 300),
          download_speed := some (.int 100) } = some false
    ∧ process_results "t" ([] ++ ({} : Deal) :: []) = process_results "t" [] ++
        process_results "t" [] :=
  ⟨(c2_validate_rejects_and_drops
      { monthly_price := some (.float 50), download_speed := some (.float 100) }).1
      (Or.inl rfl),
   (c2_validate_rejects_and_drops
      { provider := some (.str "Sky"), monthly_price := some (.int 300),
        download_speed := some (.int 100) }).2.1 (.int 300) 300 rfl
      (by norm_num [pyNumQ]) (Or.inr (by norm_num)),
   (c2_validate_rejects_and_drops {}).2.2.2 "t" [] [] {} (by decide)⟩

lemma clean_price_reclean (v : PyVal) :
    clean_price (optToPy (clean_price v)) = clean_price v := by
  cases h : clean_price v with
  | none => rfl
  | some q => rfl

lemma clean_speed_reclean (v : PyVal) :
    clean_speed (optToPy (clean_speed v)) = clean_speed v := by
  cases h : clean_speed v with
  | none => rfl
  | some q => rfl

lemma clean_cl_reclean (v : PyVal) :
    clean_contract_length (clean_contract_length v) = clean_contract_length v := by
  cases v with
  | none => rfl
  | int n => rfl
  | bool b => rfl
  | float q =>
    cases h : reSearchNatAux (toLowerL (pyStrOfFloat q)) with
    | none => simp [clean_contract_length, h]
    | some m => simp [clean_contract_length, h]
  | str s =>
    cases h : reSearchNatAux (toLowerL s.data) with
    | none => simp [clean_contract_length, h]
    | some m => simp [clean_contract_length, h]

lemma mpStep_idem (o : Option PyVal) :
    (o.map (fun v => optToPy (clean_price v))).map (fun v => optToPy (clean_price v)) =
      o.map (fun v => optToPy (clean_price v)) := by
  cases o with
  | none => rfl
  | some v =>
    simp only [Option.map_some']
    rw [clean_price_reclean]

lemma upStep_idem (o : Option PyVal) :
    (o.map (fun v => PyVal.float ((clean_price v).getD 0))).map
        (fun v => PyVal.float ((clean_price v).getD 0)) =
      o.map (fun v => PyVal.float ((clean_price v).getD 0)) := by
  cases o with
  | none => rfl
  | some v => rfl

lemma spStep_idem (o : Option PyVal) :
    (o.map (fun v => optToPy (clean_speed v))).map (fun v => optToPy (clean_speed v)) =
      o.map (fun v => optToPy (clean_speed v)) := by
  cases o with
  | none => rfl
  | some v =>
    simp only [Option.map_some']
    rw [clean_speed_reclean]

lemma clStep_idem (o : Option PyVal) :
    (o.map clean_contract_length).map clean_contract_length = o.map clean_contract_length := by
  cases o with
  | none => rfl
  | some v =>
    simp only [Option.map_some']
    rw [clean_cl_reclean]

/-- A deal with its extraction timestamp field erased, used to compare
normalized deals up to the timestamp. -/
def stripTs (d : Deal) : Deal :=
  { d with extraction_timestamp := Option.none }

/-- C3: normalization is idempotent — normalizing an already-normalized
record returns the same record, field for field, apart from the
extraction timestamp field (which is in fact also preserved, since the
second pass keeps the existing stamp; the comparison here erases it as
the claim asks). -/
theorem c3_normalize_deal_idempotent (now now2 : String) (d : Deal) :
    stripTs (normalize_deal now2 (normalize_deal now d)) = stripTs (normalize_deal now d) := by
  rcases d with ⟨p, mp, up, dl, ul, cl, tc, ts, da, ri, it, os⟩
  simp only [normalize_deal, stripTs]
  rw [mpStep_idem, upStep_idem, spStep_idem, spStep_idem, clStep_idem]
  cases hc : (tc.isNone && pyTruthy ((mp.map (fun v => optToPy (clean_price v))).getD .none) &&
      pyTruthy ((cl.map clean_contract_length).getD .none)) with
  | true => simp [hc]
  | false => simp [hc]

lemma heapW_length (hh : List Deal) (b : ℕ) (f : Deal → Deal) :
    (heapW hh b f).length = hh.length := by
  rw [heapW, List.length_set]

lemma heapW_getD_ne (hh : List Deal) (b i : ℕ) (f : Deal → Deal) (hib : i ≠ b) :
    (heapW hh b f).getD i default = hh.getD i default := by
  simp only [heapW, List.getD_eq_getElem?_getD]
  rw [List.getElem?_set_ne (by omega)]

lemma heapW_getD_self (hh : List Deal) (b : ℕ) (f : Deal → Deal) (hb : b < hh.length) :
    (heapW hh b f).getD b default = f (hh.getD b default) := by
  simp only [heapW, List.getD_eq_getElem?_getD]
  rw [List.getElem?_set_self hb]
  rfl

lemma heapChain_getD_ne (b i : ℕ) (hib : i ≠ b) :
    ∀ (fs : List (Deal → Deal)) (hh : List Deal),
      (heapChain b fs hh).getD i default = hh.getD i default := by
  intro fs
  induction fs with
  | nil => intro hh; rfl
  | cons f fs ih =>
    intro hh
    rw [heapChain, ih, heapW_getD_ne _ _ _ _ hib]

lemma heapChain_len (b : ℕ) :
    ∀ (fs : List (Deal → Deal)) (hh : List Deal), (heapChain b fs hh).length = hh.length := by
  intro fs
  induction fs with
  | nil => intro hh; rfl
  | cons f fs ih =>
    intro hh
    rw [heapChain, ih, heapW_length]

lemma heapChain_getD_self (b : ℕ) :
    ∀ (fs : List (Deal → Deal)) (hh : List Deal), b < hh.length →
      (heapChain b fs hh).getD b default = fs.foldl (fun d f => f d) (hh.getD b default) := by
  intro fs
  induction fs with
  | nil => intro hh _; rfl
  | cons f fs ih =>
    intro hh hb
    rw [heapChain, ih _ (by rw [heapW_length]; exact hb), heapW_getD_self _ _ _ hb,
      List.foldl_cons]

set_option maxHeartbeats 1600000 in
/-- C10: `normalize_deal` does not mutate its argument.  On the explicit
heap, every dictionary that existed before the call — in particular the
argument at address `a` — is unchanged afterwards; all coercions,
defaults and computed fields appear only in the fresh copy at the
returned address, whose content is exactly the pure `normalize_deal` of
the argument. -/
theorem c10_normalize_deal_no_mutation (now : String) (h : List Deal) (a : ℕ)
    (ha : a < h.length) :
    (∀ i, i < h.length →
      ((normalize_deal_heap now h a).1).getD i default = h.getD i default)
    ∧ ((normalize_deal_heap now h a).1).getD (normalize_deal_heap now h a).2 default =
        normalize_deal now (h.getD a default) := by
  constructor
  · intro i hi
    have hib : i ≠ h.length := by omega
    simp only [normalize_deal_heap]
    rw [heapChain_getD_ne _ _ hib]
    simp only [List.getD_eq_getElem?_getD]
    rw [List.getElem?_append_left hi]
  · simp only [normalize_deal_heap]
    rw [heapChain_getD_self _ _ _
      (by simp only [List.length_append, List.length_cons, List.length_nil]; omega)]
    rw [List.getD_eq_getElem?_getD, List.getElem?_concat_length]
    simp only [Option.getD_some]
    generalize h.getD a default = d0
    rcases d0 with ⟨p, mp, up, dl, ul, cl, tc, ts, da, ri, it, os⟩
    simp only [normalize_stmts, List.foldl_cons, List.foldl_nil, normalize_deal]
    cases hc : (tc.isNone && pyTruthy ((mp.map (fun v => optToPy (clean_price v))).getD .none) &&
        pyTruthy ((cl.map clean_contract_length).getD .none)) <;>
      rcases ts with _ | tsv <;> rcases da with _ | dav <;> rcases ri with _ | riv <;>
        rcases it with _ | itv <;> simp [hc]

/-- The normalized ids recorded in `seen_ids` after consuming cards `0..n-1`. -/
def seenNorm (ids : ℕ → Option (List Char)) : ℕ → List (List Char)
  | 0 => []
  | n + 1 =>
    match ids n with
    | some cid =>
      if cid.isEmpty then seenNorm ids n
      else if normId cid ∈ seenNorm ids n then seenNorm ids n
      else normId cid :: seenNorm ids n
    | Option.none => seenNorm ids n

lemma mem_seenNorm (ids : ℕ → Option (List Char)) (n : ℕ) (x : List Char)
    (hx : x ∈ seenNorm ids n) : ∃ j b, j < n ∧ ids j = some b ∧ x = normId b := by
  induction n with
  | zero => simp [seenNorm] at hx
  | succ n ih =>
    rw [seenNorm] at hx
    have step : x ∈ seenNorm ids n → ∃ j b, j < n + 1 ∧ ids j = some b ∧ x = normId b := by
      intro hmem
      obtain ⟨j, b, hj, hb, hxb⟩ := ih hmem
      exact ⟨j, b, by omega, hb, hxb⟩
    cases hid : ids n with
    | none => simp only [hid] at hx; exact step hx
    | some cid =>
      simp only [hid] at hx
      by_cases he : cid.isEmpty
      · rw [if_pos he] at hx
        exact step hx
      · rw [if_neg he] at hx
        by_cases hm : normId cid ∈ seenNorm ids n
        · rw [if_pos hm] at hx
          exact step hx
        · rw [if_neg hm] at hx
          rcases List.mem_cons.mp hx with h | h
          · exact ⟨n, cid, by omega, hid, h⟩
          · exact step h

/-- Loop invariant for `_scrape_cards`. -/
def ScrapeInv (M : ℕ) (counts : ℕ → ℕ) (ids : ℕ → Option (List Char)) (s : ScrapeState) :
    Prop :=
  s.index ≤ counts s.t ∧ s.stable ≤ 2 ∧
  (1 ≤ s.stable → counts s.t ≤ s.index → s.index = M) ∧
  s.attempts = List.range s.index ∧
  s.seen = seenNorm ids s.index

/-- Termination measure for `_scrape_cards`. -/
def scrapeMeasure (M : ℕ) (counts : ℕ → ℕ) (s : ScrapeState) : ℕ :=
  3 * (M - s.index) + (3 - s.stable) + (M - counts s.t)

lemma scrape_loop_main (M : ℕ) (counts : ℕ → ℕ) (ids : ℕ → Option (List Char))
    (hmono : Monotone counts) (hbound : ∀ t, counts t ≤ M)
    (hgrow : ∀ t, counts t < M → counts t < counts (t + 1))
    (hinj : ∀ i j a b, i < M → j < M → i ≠ j → ids i = some a → ids j = some b →
      normId a ≠ normId b) :
    ∀ fuel s, ScrapeInv M counts ids s → scrapeMeasure M counts s < fuel →
      scrape_cards_loop counts ids fuel s = some (List.range M) := by
  intro fuel
  induction fuel with
  | zero => intro s _ hμ; omega
  | succ fuel ih =>
    rintro ⟨idx, stb, seen, att, t⟩ hinv hμ
    obtain ⟨h1, h2, h3, h4, h5⟩ := hinv
    simp only [ScrapeInv] at h1 h2 h3 h4 h5 ⊢
    simp only [scrapeMeasure] at hμ
    have hmt : counts t ≤ counts (t + 1) := hmono (Nat.le_succ t)
    have hbt : counts t ≤ M := hbound t
    have hbt1 : counts (t + 1) ≤ M := hbound (t + 1)
    rw [scrape_cards_loop]
    dsimp only
    by_cases hidx : idx ≥ counts t
    · rw [if_pos hidx]
      have hieq : idx = counts t := le_antisymm h1 hidx
      by_cases hst : stb + 1 > 2
      · rw [if_pos hst]
        have hiM : idx = M := h3 (by omega) hidx
        rw [h4, hiM]
      · rw [if_neg hst]
        apply ih
        · refine ⟨?_, ?_, ?_, h4, h5⟩
          · show idx ≤ counts (t + 1)
            omega
          · show stb + 1 ≤ 2
            omega
          · show 1 ≤ stb + 1 → counts (t + 1) ≤ idx → idx = M
            intro _ hle
            by_cases hcM : counts t = M
            · omega
            · have := hgrow t (by omega)
              omega
        · show 3 * (M - idx) + (3 - (stb + 1)) + (M - counts (t + 1)) < fuel
          omega
    · rw [if_neg hidx]
      have hiM : idx < M := by omega
      cases hid : ids idx with
      | none =>
        simp only [hid]
        apply ih
        · refine ⟨?_, ?_, ?_, ?_, ?_⟩
          · show idx + 1 ≤ counts (t + 1)
            omega
          · show (0 : ℕ) ≤ 2
            omega
          · show 1 ≤ 0 → counts (t + 1) ≤ idx + 1 → idx + 1 = M
            intro h0 _
            omega
          · show att ++ [idx] = List.range (idx + 1)
            rw [h4, List.range_succ]
          · show seen = seenNorm ids (idx + 1)
            simp only [seenNorm, hid]
            exact h5
        · show 3 * (M - (idx + 1)) + (3 - 0) + (M - counts (t + 1)) < fuel
          omega
      | some cid =>
        simp only [hid]
        by_cases he : cid.isEmpty
        · rw [if_pos he]
          apply ih
          · refine ⟨?_, ?_, ?_, ?_, ?_⟩
            · show idx + 1 ≤ counts (t + 1)
              omega
            · show (0 : ℕ) ≤ 2
              omega
            · show 1 ≤ 0 → counts (t + 1) ≤ idx + 1 → idx + 1 = M
              intro h0 _
              omega
            · show att ++ [idx] = List.range (idx + 1)
              rw [h4, List.range_succ]
            · show seen = seenNorm ids (idx + 1)
              simp only [seenNorm, hid, if_pos he]
              exact h5
          · show 3 * (M - (idx + 1)) + (3 - 0) + (M - counts (t + 1)) < fuel
            omega
        · rw [if_neg he]
          have hnotmem : ¬normId cid ∈ seen := by
            rw [h5]
            intro hmem
            obtain ⟨j, b, hj, hb, hxb⟩ := mem_seenNorm ids idx (normId cid) hmem
            exact hinj idx j cid b hiM (by omega) (by omega) hid hb hxb
          rw [if_neg hnotmem]
          apply ih
          · refine ⟨?_, ?_, ?_, ?_, ?_⟩
            · show idx + 1 ≤ counts (t + 1)
              omega
            · show (0 : ℕ) ≤ 2
              omega
            · show 1 ≤ 0 → counts (t + 1) ≤ idx + 1 → idx + 1 = M
              intro h0 _
              omega
            · show att ++ [idx] = List.range (idx + 1)
              rw [h4, List.range_succ]
            · show normId cid :: seen = seenNorm ids (idx + 1)
              simp only [seenNorm, hid, if_neg he]
              rw [← h5, if_neg hnotmem]
          · show 3 * (M - (idx + 1)) + (3 - 0) + (M - counts (t + 1)) < fuel
            omega

/-- C5: the lazy-load card enumeration terminates.  For a card source
that keeps rendering new cards each poll until `M` cards are rendered
and then stops (the rendered count stops growing at `M`), and whose
cards have pairwise distinct normalized ids, the loop attempts to parse
each of the `M` cards exactly once (returning the attempt indices
`0..M-1` in order, deduplicating by card id) and exits after at most 3
consecutive no-progress cycles: any fuel of at least `4*M + 4`
iterations returns this result instead of looping forever. -/
theorem c5_lazy_load_enumeration (M : ℕ) (counts : ℕ → ℕ) (ids : ℕ → Option (List Char))
    (hmono : Monotone counts) (hbound : ∀ t, counts t ≤ M)
    (hgrow : ∀ t, counts t < M → counts t < counts (t + 1))
    (hinj : ∀ i j a b, i < M → j < M → i ≠ j → ids i = some a → ids j = some b →
      normId a ≠ normId b) :
    ∀ fuel, 4 * M + 4 ≤ fuel →
      scrape_cards_loop counts ids fuel scrapeStart = some (List.range M) := by
  intro fuel hf
  apply scrape_loop_main M counts ids hmono hbound hgrow hinj
  · simp only [ScrapeInv, scrapeStart]
    exact ⟨Nat.zero_le _, by omega, by omega, rfl, rfl⟩
  · have := hbound 0
    simp only [scrapeMeasure, scrapeStart]
    omega

/-- Witness for C5: a source that renders one new card per poll up to 2
cards, with id-less cards, is enumerated as `[0, 1]`. -/
theorem c5_lazy_load_enumeration_witness :
    scrape_cards_loop (fun t => min t 2) (fun _ => Option.none) 12 scrapeStart =
      some (List.range 2) :=
  c5_lazy_load_enumeration 2 (fun t => min t 2) (fun _ => Option.none)
    (fun _ _ hab => by dsimp only; omega)
    (fun t => by dsimp only; omega)
    (fun t h => by dsimp only at *; omega)
    (fun _ _ _ _ _ _ _ hia _ => Option.noConfusion hia)
    12 (by omega)

/-- Witness for C10: on a one-dictionary heap, the original dictionary
at address 0 is unchanged by `normalize_deal`. -/
theorem c10_normalize_deal_no_mutation_witness :
    ((normalize_deal_heap "t" [({} : Deal)] 0).1).getD 0 default = ({} : Deal) :=
  ((c10_normalize_deal_no_mutation "t" [({} : Deal)] 0 (by decide)).1 0 (by decide)).trans rfl
